import Mathlib

/-!
Verification of the TapMeIn redirect resolution engine.

This development shallowly embeds the redirect-resolution logic of the
TapMeIn repository: the profile model methods `getRedirectUrl`,
`getActiveTimeBasedRedirect`, `getActiveGeoBasedRedirect` and
`getActiveConditionalRedirect` (Profile model), and the public tap route
handler `GET /tap/:cardUID` (routes/tap.js).

Modelling conventions:
- JavaScript strings are `String`; a possibly-`undefined` string field is
  `Option String` with `none` for `undefined`.
- JS string relational comparison (`>=`, `<=`) is lexicographic on UTF-16
  code units; it is modelled by `strLe` below (lexicographic on code points,
  which coincides on the BMP characters used here).
- Timestamps are minutes since the Unix epoch (UTC) as `Int`.  The JS
  `Date#getDay`, `getHours`, `getMinutes` accessors read the *server's local
  timezone*; the server's clock is modelled as a fixed UTC offset in minutes
  (`off`), so the local reading of instant `ts` is `ts + off`.
- `new RegExp(pattern, 'i')` and `.test` are modelled by an abstract engine
  `re : String → Option (String → Bool)`: `re pattern = none` models a
  malformed pattern (the constructor throws), and `re pattern = some t`
  models a successfully compiled case-insensitive tester `t`.
- JS `Array.prototype.sort` with comparator `(a, b) => b.priority - a.priority`
  is (since ES2019) the stable descending sort by priority; it is modelled by
  the stable insertion sort `sortByPriorityDesc`.
-/

namespace TapMeIn

/-- Lexicographic comparison of character lists by code point, the model of
JavaScript string `<=` on `HH:MM` strings. -/
def lexLe : List Char → List Char → Bool
  | [], _ => true
  | _ :: _, [] => false
  | a :: as, b :: bs =>
    if a.toNat < b.toNat then true
    else if b.toNat < a.toNat then false
    else lexLe as bs

/-- JavaScript string `a <= b` (code-unit lexicographic order). -/
def strLe (a b : String) : Bool := lexLe a.data b.data

/-- Left-pad a natural number to two digits, the model of
`n.toString().padStart(2, '0')`. -/
def pad2 (n : Nat) : String := if n < 10 then "0" ++ toString n else toString n

/-- Minute-of-day of instant `ts` read on a server at UTC offset `off`
(model of local `getHours() * 60 + getMinutes()`). -/
def jsMinuteOfDay (ts off : Int) : Nat := ((ts + off).emod 1440).toNat

/-- Day-of-week (Sunday = 0) of instant `ts` read on a server at UTC offset
`off` (model of local `getDay()`); the Unix epoch fell on a Thursday. -/
def jsDayOfWeek (ts off : Int) : Nat := (((ts + off).ediv 1440 + 4).emod 7).toNat

/-- The string `currentTime` built by `getActiveTimeBasedRedirect`:
`HH:MM` of the server-local reading of the instant. -/
def jsTimeString (ts off : Int) : String :=
  pad2 (jsMinuteOfDay ts off / 60) ++ ":" ++ pad2 (jsMinuteOfDay ts off % 60)

/-- One element of `profileSchema.timeBasedRedirects`. -/
structure TimeRule where
  name : String
  startTime : String
  endTime : String
  daysOfWeek : List Nat
  url : String
  active : Bool
  timezone : String
deriving DecidableEq, Repr

/-- Body of the `find` callback in `getActiveTimeBasedRedirect`: day filter
then inclusive lexicographic time-range test. -/
def timeRuleMatches (day : Nat) (time : String) (r : TimeRule) : Bool :=
  if r.daysOfWeek.length > 0 && ! r.daysOfWeek.contains day then false
  else strLe r.startTime time && strLe time r.endTime

/-- `profileSchema.methods.getActiveTimeBasedRedirect(timestamp)`: computes
`currentDay` and `currentTime` from the server-local clock, filters the rules
to the active ones and returns the first whose day/time test passes. -/
def getActiveTimeBasedRedirect (rules : List TimeRule) (ts off : Int) : Option TimeRule :=
  (rules.filter (fun r => r.active)).find?
    (timeRuleMatches (jsDayOfWeek ts off) (jsTimeString ts off))

/-- Visitor location as produced by geolocation (`context.location`);
each field may be `undefined`. -/
structure VisitorLocation where
  country : Option String
  region : Option String
  city : Option String
deriving DecidableEq, Repr

/-- One element of `profileSchema.geoBasedRedirects`; `country`, `region`
and `city` are optional. -/
structure GeoRule where
  name : String
  country : Option String
  region : Option String
  city : Option String
  url : String
  active : Bool
  priority : Nat
deriving DecidableEq, Repr

/-- JavaScript truthiness of a possibly-undefined string: `undefined` and
the empty string are falsy. -/
def truthyStr (o : Option String) : Bool :=
  match o with
  | none => false
  | some s => ! (s == "")

/-- One guard of the geo `find` callback: when the rule field is truthy the
location field must be strictly equal to it, otherwise it is unconstrained
(model of `if (rule.country && location.country !== rule.country) return false`). -/
def geoFieldCheck (ruleField locField : Option String) : Bool :=
  if truthyStr ruleField then locField == ruleField else true

/-- Body of the `find` callback in `getActiveGeoBasedRedirect`. -/
def geoRuleMatches (loc : VisitorLocation) (r : GeoRule) : Bool :=
  geoFieldCheck r.country loc.country
    && geoFieldCheck r.region loc.region
    && geoFieldCheck r.city loc.city

/-- The `condition` enum of `profileSchema.conditionalRedirects`. -/
inductive CondKey where
  | device
  | browser
  | referrer
  | userAgent
deriving DecidableEq, Repr

/-- The `operator` enum of `profileSchema.conditionalRedirects`. -/
inductive CondOp where
  | equals
  | contains
  | startsWith
  | endsWith
  | regex
deriving DecidableEq, Repr

/-- One element of `profileSchema.conditionalRedirects`. -/
structure ConditionalRule where
  name : String
  condition : CondKey
  value : String
  operator : CondOp
  url : String
  active : Bool
  priority : Nat
deriving DecidableEq, Repr

/-- The tap context handed to `getRedirectUrl`: the tap instant, the visitor
location and the client signals, each signal possibly `undefined`. -/
structure TapContext where
  timestamp : Int
  location : VisitorLocation
  device : Option String
  browser : Option String
  referrer : Option String
  userAgent : Option String
deriving DecidableEq, Repr

/-- `context[rule.condition] || ''`: the raw signal value, with a missing
(or empty) signal read as the empty string. -/
def signalOf (ctx : TapContext) : CondKey → String
  | CondKey.device => ctx.device.getD ""
  | CondKey.browser => ctx.browser.getD ""
  | CondKey.referrer => ctx.referrer.getD ""
  | CondKey.userAgent => ctx.userAgent.getD ""

/-- Substring test on character lists (model of JS `String#includes`). -/
def listIncludes (sub : List Char) : List Char → Bool
  | [] => sub.isEmpty
  | a :: t => sub.isPrefixOf (a :: t) || listIncludes sub t

/-- JavaScript `s.includes(sub)`. -/
def jsIncludes (s sub : String) : Bool := listIncludes sub.data s.data

/-- Body of the `find` callback in `getActiveConditionalRedirect`.  The
regex engine `re` models `new RegExp(rule.value, 'i')`: `none` when the
constructor throws on a malformed pattern (the `catch` branch returns
`false`), and `some tester` for the compiled case-insensitive test, applied
to the original-case signal value. -/
def condRuleMatches (re : String → Option (String → Bool)) (ctx : TapContext)
    (r : ConditionalRule) : Bool :=
  let testValue := signalOf ctx r.condition
  let ruleValue := r.value.toLower
  let testValueLower := testValue.toLower
  match r.operator with
  | CondOp.equals => testValueLower == ruleValue
  | CondOp.contains => jsIncludes testValueLower ruleValue
  | CondOp.startsWith => testValueLower.startsWith ruleValue
  | CondOp.endsWith => testValueLower.endsWith ruleValue
  | CondOp.regex =>
    match re r.value with
    | some tester => tester testValue
    | none => false

/-- One step of the stable descending insertion sort: `x` is placed before
the first element of strictly smaller priority, hence after every
earlier-declared element of greater or equal priority.  This is the unique
stable sort produced by `Array#sort((a, b) => b.priority - a.priority)`. -/
def sortInsert (pr : α → Nat) (x : α) : List α → List α
  | [] => [x]
  | y :: ys => if pr x < pr y then y :: sortInsert pr x ys else x :: y :: ys

/-- Stable sort by priority descending (model of the JS in-place `sort` on
the freshly filtered copy of the rule array). -/
def sortByPriorityDesc (pr : α → Nat) (l : List α) : List α :=
  l.foldr (sortInsert pr) []

/-- `profileSchema.methods.getActiveGeoBasedRedirect(location)`: filter to
active rules, stable-sort by priority descending, return the first match. -/
def getActiveGeoBasedRedirect (rules : List GeoRule) (loc : VisitorLocation) :
    Option GeoRule :=
  (sortByPriorityDesc (fun r => r.priority) (rules.filter (fun r => r.active))).find?
    (geoRuleMatches loc)

/-- `profileSchema.methods.getActiveConditionalRedirect(context)`: filter to
active rules, stable-sort by priority descending, return the first match. -/
def getActiveConditionalRedirect (re : String → Option (String → Bool))
    (rules : List ConditionalRule) (ctx : TapContext) : Option ConditionalRule :=
  (sortByPriorityDesc (fun r => r.priority) (rules.filter (fun r => r.active))).find?
    (condRuleMatches re ctx)

/-- The `redirectType` enum of the profile schema. -/
inductive RedirectType where
  | static
  | timeBased
  | geoBased
  | conditional
deriving DecidableEq, Repr

/-- The redirect-relevant part of a Profile document.  `redirectUrl` is the
default URL; it is `Option String` because a document read from the store may
lack the field (`undefined`), the case the error-handling claims are about. -/
structure Profile where
  redirectUrl : Option String
  redirectType : RedirectType
  timeBasedRedirects : List TimeRule
  geoBasedRedirects : List GeoRule
  conditionalRedirects : List ConditionalRule
deriving DecidableEq, Repr

/-- `profileSchema.methods.getRedirectUrl(context)`, with its sequence of
early returns: static short-circuit, then one guarded selection per
redirect type (each guard also requires a non-empty rule list), then the
fall-through `return this.redirectUrl`. -/
def getRedirectUrl (re : String → Option (String → Bool)) (off : Int)
    (p : Profile) (ctx : TapContext) : Option String :=
  if p.redirectType = RedirectType.static then p.redirectUrl
  else
    let t : Option String :=
      if p.redirectType = RedirectType.timeBased ∧ p.timeBasedRedirects.length > 0 then
        (getActiveTimeBasedRedirect p.timeBasedRedirects ctx.timestamp off).map
          (fun r => r.url)
      else none
    match t with
    | some u => some u
    | none =>
      let g : Option String :=
        if p.redirectType = RedirectType.geoBased ∧ p.geoBasedRedirects.length > 0 then
          (getActiveGeoBasedRedirect p.geoBasedRedirects ctx.location).map
            (fun r => r.url)
        else none
      match g with
      | some u => some u
      | none =>
        let c : Option String :=
          if p.redirectType = RedirectType.conditional ∧ p.conditionalRedirects.length > 0 then
            (getActiveConditionalRedirect re p.conditionalRedirects ctx).map
              (fun r => r.url)
          else none
        match c with
        | some u => some u
        | none => p.redirectUrl

/-- The card fields the tap route reads: the activation flag and the
(possibly absent) associated profile, of which the route only tests
presence (`!!card.profile`, `if (card.profile)`). -/
structure TapCard where
  isActivated : Bool
  profile : Option Profile
deriving DecidableEq, Repr

/-- The externally visible outcomes of `GET /tap/:cardUID`:
404 card-not-found, 400 card-not-activated, `next(error)` from the `catch`
block, or the JSON success response whose optional `data.redirectUrl` field
is reported here. -/
inductive TapResp where
  | notFound
  | notActivated
  | errorForwarded
  | tapSuccess (redirectUrl : Option String)
deriving DecidableEq, Repr

/-- The fixed placeholder URL the route writes into `data.redirectUrl`. -/
def placeholderRedirectUrl : String := "https://example.com"

/-- The tap route handler of `routes/tap.js`.  `card` is the (possibly
missing) result of the card lookup; `recordTapOk` is whether the awaited
`card.recordTap()` resolves — when it rejects, control reaches the `catch`
block, which forwards the error via `next(error)`. -/
def tapHandler (card : Option TapCard) (recordTapOk : Bool) : TapResp :=
  match card with
  | none => TapResp.notFound
  | some c =>
    if ! c.isActivated then TapResp.notActivated
    else if ! recordTapOk then TapResp.errorForwarded
    else TapResp.tapSuccess
      (if c.profile.isSome then some placeholderRedirectUrl else none)

/-- Result type of the specified resolver: a destination URL or the
`NoDefaultUrl` data-integrity error (spec section 6). -/
inductive ResolveResult where
  | url (u : String)
  | errNoDefaultUrl
deriving DecidableEq, Repr

/-- Modelled from the spec: `resolveRedirect(profile, tapContext) ->
url or error NoDefaultUrl` of spec sections 4.3 and 6 — the only hard
failure is a profile whose default URL is absent or empty; otherwise the
static strategy returns the default URL, a non-static strategy consults its
own rule list and falls back to the default URL.  Rule selection reuses the
selectors embedded above.  This definition exists only for comparison with
the code's `getRedirectUrl`, which has no error outcome at all. -/
def resolveRedirectSpec (re : String → Option (String → Bool)) (off : Int)
    (p : Profile) (ctx : TapContext) : ResolveResult :=
  match p.redirectUrl with
  | none => ResolveResult.errNoDefaultUrl
  | some d =>
    if d = "" then ResolveResult.errNoDefaultUrl
    else
      match p.redirectType with
      | RedirectType.static => ResolveResult.url d
      | RedirectType.timeBased =>
        match getActiveTimeBasedRedirect p.timeBasedRedirects ctx.timestamp off with
        | some r => ResolveResult.url r.url
        | none => ResolveResult.url d
      | RedirectType.geoBased =>
        match getActiveGeoBasedRedirect p.geoBasedRedirects ctx.location with
        | some r => ResolveResult.url r.url
        | none => ResolveResult.url d
      | RedirectType.conditional =>
        match getActiveConditionalRedirect re p.conditionalRedirects ctx with
        | some r => ResolveResult.url r.url
        | none => ResolveResult.url d

/-- Spec section 4.2 selection, stated directly on the original list: among
the candidates satisfying `q`, the first (in original declaration order)
whose priority is maximal — i.e. priority descending with ties broken in
favour of the earlier-declared rule. -/
def prioritySelectSpec (pr : α → Nat) (q : α → Bool) (l : List α) : Option α :=
  (l.filter q).find? (fun r => (l.filter q).all (fun y => pr y ≤ pr r))

/-- Sortedness by priority descending. -/
def SortedDesc (pr : α → Nat) (l : List α) : Prop :=
  l.Pairwise (fun a b => pr b ≤ pr a)

/-- Rewrite of a time rule's `timezone` field, used to state that the time
matcher never reads it. -/
def setTimezone (tz : String) (r : TimeRule) : TimeRule :=
  { r with timezone := tz }

/-- A regex engine in which every pattern is malformed (every
`new RegExp` call throws). -/
def reNone : String → Option (String → Bool) := fun _ => none

/-- A concrete tap context: instant 600 minutes after the epoch
(1970-01-01 10:00 UTC, a Thursday), no location, no client signals. -/
def ctx0 : TapContext :=
  { timestamp := 600
    location := { country := none, region := none, city := none }
    device := none
    browser := none
    referrer := none
    userAgent := none }

/-- A concrete time rule: business hours 09:00 to 17:00, any day, with an
explicit (and, per C2, ignored) timezone field. -/
def timeRuleNY : TimeRule :=
  { name := "Business hours"
    startTime := "09:00"
    endTime := "17:00"
    daysOfWeek := []
    url := "https://work.example"
    active := true
    timezone := "America/New_York" }

/-- A concrete static profile whose default URL is present. -/
def profileWork : Profile :=
  { redirectUrl := some "https://work.example"
    redirectType := RedirectType.static
    timeBasedRedirects := []
    geoBasedRedirects := []
    conditionalRedirects := [] }

/-- A concrete static profile whose default URL is absent (`undefined`). -/
def profileNoDefault : Profile :=
  { redirectUrl := none
    redirectType := RedirectType.static
    timeBasedRedirects := []
    geoBasedRedirects := []
    conditionalRedirects := [] }

/-- A concrete time-based profile with an empty rule list. -/
def profileTimeEmpty : Profile :=
  { redirectUrl := some "https://default.example"
    redirectType := RedirectType.timeBased
    timeBasedRedirects := []
    geoBasedRedirects := []
    conditionalRedirects := [] }

/-- An activated card associated with `profileWork`. -/
def cardWithProfile : TapCard :=
  { isActivated := true, profile := some profileWork }

/-- A concrete active conditional rule whose `regex` pattern `(` is
malformed. -/
def condRegexRule : ConditionalRule :=
  { name := "bad regex"
    condition := CondKey.device
    value := "("
    operator := CondOp.regex
    url := "https://m.example"
    active := true
    priority := 1 }

/-- Helper: `find?` over a `filter` is `find?` of the conjunction. -/
theorem find?_filter_eq (p q : α → Bool) (l : List α) :
    (l.filter p).find? q = l.find? (fun a => p a && q a) := by
  induction l with
  | nil => rfl
  | cons x l ih =>
    by_cases hp : p x = true
    · by_cases hq : q x = true
      · simp [List.filter_cons, hp, List.find?_cons, hq]
      · simp only [Bool.not_eq_true] at hq
        simp [List.filter_cons, hp, List.find?_cons, hq, ih]
    · simp only [Bool.not_eq_true] at hp
      simp [List.filter_cons, hp, List.find?_cons, ih]

theorem mem_sortInsert (pr : α → Nat) (x a : α) :
    ∀ s : List α, a ∈ sortInsert pr x s ↔ a = x ∨ a ∈ s := by
  intro s
  induction s with
  | nil => simp [sortInsert]
  | cons y ys ih =>
    by_cases hlt : pr x < pr y
    · simp only [sortInsert, if_pos hlt, List.mem_cons, ih]
      tauto
    · simp only [sortInsert, if_neg hlt, List.mem_cons]

theorem sortedDesc_sortInsert (pr : α → Nat) (x : α) :
    ∀ s : List α, SortedDesc pr s → SortedDesc pr (sortInsert pr x s) := by
  intro s
  induction s with
  | nil =>
    intro _
    simp [sortInsert, SortedDesc]
  | cons y ys ih =>
    intro hs
    simp only [SortedDesc, List.pairwise_cons] at hs
    obtain ⟨hy, hys⟩ := hs
    by_cases hlt : pr x < pr y
    · simp only [SortedDesc, sortInsert, if_pos hlt, List.pairwise_cons]
      constructor
      · intro b hb
        rcases (mem_sortInsert pr x b ys).mp hb with hbx | hbys
        · exact hbx ▸ Nat.le_of_lt hlt
        · exact hy b hbys
      · exact ih hys
    · simp only [SortedDesc, sortInsert, if_neg hlt, List.pairwise_cons]
      refine ⟨?_, hy, hys⟩
      intro b hb
      rcases List.mem_cons.mp hb with hby | hbys
      · exact hby ▸ Nat.le_of_not_lt hlt
      · exact Nat.le_trans (hy b hbys) (Nat.le_of_not_lt hlt)

theorem sortedDesc_sortByPriorityDesc (pr : α → Nat) :
    ∀ l : List α, SortedDesc pr (sortByPriorityDesc pr l) := by
  intro l
  induction l with
  | nil => simp [sortByPriorityDesc, SortedDesc]
  | cons x l ih => exact sortedDesc_sortInsert pr x _ ih

theorem find?_sortInsert_of_neg (pr : α → Nat) (q : α → Bool) (x : α)
    (hx : q x = false) :
    ∀ s : List α, (sortInsert pr x s).find? q = s.find? q := by
  intro s
  induction s with
  | nil => simp [sortInsert, List.find?, hx]
  | cons y ys ih =>
    by_cases hlt : pr x < pr y
    · simp only [sortInsert, if_pos hlt, List.find?]
      cases hq : q y
      · simpa [hq] using ih
      · simp [hq]
    · simp [sortInsert, if_neg hlt, List.find?, hx]

theorem find?_sortInsert (pr : α → Nat) (q : α → Bool) (x : α) :
    ∀ s : List α, SortedDesc pr s →
      (sortInsert pr x s).find? q =
        match s.find? q with
        | none => if q x then some x else none
        | some r => if q x ∧ pr r ≤ pr x then some x else some r := by
  intro s
  induction s with
  | nil =>
    intro _
    cases hq : q x <;> simp [sortInsert, List.find?, hq]
  | cons y ys ih =>
    intro hs
    simp only [SortedDesc, List.pairwise_cons] at hs
    obtain ⟨hy, hys⟩ := hs
    by_cases hlt : pr x < pr y
    · simp only [sortInsert, if_pos hlt]
      by_cases hqy : q y = true
      · rw [List.find?_cons_of_pos _ hqy, List.find?_cons_of_pos _ hqy]
        have hcond : ¬(q x = true ∧ pr y ≤ pr x) := by
          rintro ⟨-, hle⟩
          exact absurd hlt (Nat.not_lt.mpr hle)
        simp [hcond]
      · rw [List.find?_cons_of_neg _ hqy, List.find?_cons_of_neg _ hqy]
        exact ih hys
    · have hyx : pr y ≤ pr x := Nat.le_of_not_lt hlt
      simp only [sortInsert, if_neg hlt]
      by_cases hqx : q x = true
      · rw [List.find?_cons_of_pos _ hqx]
        cases hfind : List.find? q (y :: ys) with
        | none => simp [hqx]
        | some r =>
          have hr_mem : r ∈ y :: ys := List.mem_of_find?_eq_some hfind
          have hrx : pr r ≤ pr x := by
            rcases List.mem_cons.mp hr_mem with hry | hrys
            · exact hry ▸ hyx
            · exact Nat.le_trans (hy r hrys) hyx
          simp [hqx, hrx]
      · rw [List.find?_cons_of_neg _ hqx]
        cases hfind : List.find? q (y :: ys) with
        | none => simp [hqx]
        | some r => simp [hqx]

theorem exists_max_attainer (pr : α → Nat) :
    ∀ c : List α, c ≠ [] → ∃ r, r ∈ c ∧ ∀ y ∈ c, pr y ≤ pr r := by
  intro c
  induction c with
  | nil => intro h; exact absurd rfl h
  | cons a l ih =>
    intro _
    cases l with
    | nil =>
      refine ⟨a, List.mem_cons_self a [], ?_⟩
      intro y hy
      rcases List.mem_cons.mp hy with h1 | h2
      · exact h1 ▸ Nat.le_refl _
      · exact absurd h2 (List.not_mem_nil y)
    | cons b m =>
      obtain ⟨r, hr_mem, hr_max⟩ := ih (List.cons_ne_nil b m)
      by_cases hle : pr r ≤ pr a
      · refine ⟨a, List.mem_cons_self a _, ?_⟩
        intro y hy
        rcases List.mem_cons.mp hy with h1 | h2
        · exact h1 ▸ Nat.le_refl _
        · exact Nat.le_trans (hr_max y h2) hle
      · refine ⟨r, List.mem_cons_of_mem a hr_mem, ?_⟩
        intro y hy
        rcases List.mem_cons.mp hy with h1 | h2
        · exact h1 ▸ Nat.le_of_lt (Nat.lt_of_not_le hle)
        · exact hr_max y h2

theorem find?_maxpred_isSome (pr : α → Nat) (c : List α) (hne : c ≠ []) :
    (c.find? (fun r => c.all (fun y => pr y ≤ pr r))).isSome := by
  obtain ⟨r, hr_mem, hr_max⟩ := exists_max_attainer pr c hne
  rw [List.find?_isSome]
  refine ⟨r, hr_mem, ?_⟩
  rw [List.all_eq_true]
  intro y hy
  exact decide_eq_true (hr_max y hy)

theorem find?_of_imp (p q : α → Bool) (r : α) :
    ∀ l : List α, l.find? p = some r → q r = true →
      (∀ y, q y = true → p y = true) → l.find? q = some r := by
  intro l
  induction l with
  | nil => intro h; exact absurd h (by simp)
  | cons z zs ih =>
    intro hfind hqr himp
    by_cases hpz : p z = true
    · rw [List.find?_cons_of_pos _ hpz] at hfind
      have hz : z = r := Option.some.inj hfind
      subst hz
      rw [List.find?_cons_of_pos _ hqr]
    · rw [List.find?_cons_of_neg _ hpz] at hfind
      have hqz : ¬ q z = true := fun h => hpz (himp z h)
      rw [List.find?_cons_of_neg _ hqz]
      exact ih hfind hqr himp

theorem prioritySelectSpec_cons_of_neg (pr : α → Nat) (q : α → Bool) (x : α)
    (l : List α) (hqx : ¬ q x = true) :
    prioritySelectSpec pr q (x :: l) = prioritySelectSpec pr q l := by
  simp only [prioritySelectSpec, List.filter_cons_of_neg hqx]

/-- The heart of the priority-selection refinement: a `find?` over the
stable descending sort picks the earliest-declared candidate of maximal
priority. -/
theorem find?_sortByPriorityDesc (pr : α → Nat) (q : α → Bool) :
    ∀ l : List α, (sortByPriorityDesc pr l).find? q = prioritySelectSpec pr q l := by
  intro l
  induction l with
  | nil => rfl
  | cons x l ih =>
    have hstep : sortByPriorityDesc pr (x :: l) = sortInsert pr x (sortByPriorityDesc pr l) := rfl
    rw [hstep, find?_sortInsert pr q x _ (sortedDesc_sortByPriorityDesc pr l), ih]
    by_cases hqx : q x = true
    · cases hsel : prioritySelectSpec pr q l with
      | none =>
        have hc : l.filter q = [] := by
          by_contra hne
          have := find?_maxpred_isSome pr (l.filter q) hne
          rw [prioritySelectSpec] at hsel
          rw [hsel] at this
          exact Bool.noConfusion this
        simp only [prioritySelectSpec, List.filter_cons_of_pos hqx, hc]
        rw [List.find?_cons_of_pos]
        · simp [hqx]
        · simp
      | some r =>
        rw [prioritySelectSpec] at hsel
        have hr_mem : r ∈ l.filter q := List.mem_of_find?_eq_some hsel
        have hr_all : (l.filter q).all (fun y => decide (pr y ≤ pr r)) = true := by
          have h := List.find?_some hsel
          simpa using h
        have hr_le : ∀ y ∈ l.filter q, pr y ≤ pr r := by
          intro y hy
          have := List.all_eq_true.mp hr_all y hy
          exact of_decide_eq_true this
        by_cases hle : pr r ≤ pr x
        · have hcond : q x = true ∧ pr r ≤ pr x := ⟨hqx, hle⟩
          simp only [if_pos hcond]
          simp only [prioritySelectSpec, List.filter_cons_of_pos hqx]
          rw [List.find?_cons_of_pos]
          rw [List.all_cons]
          refine (Bool.and_eq_true _ _).mpr ⟨decide_eq_true (Nat.le_refl _), ?_⟩
          rw [List.all_eq_true]
          intro y hy
          exact decide_eq_true (Nat.le_trans (hr_le y hy) hle)
        · have hcond : ¬(q x = true ∧ pr r ≤ pr x) := fun h => hle h.2
          simp only [if_neg hcond]
          simp only [prioritySelectSpec, List.filter_cons_of_pos hqx]
          rw [List.find?_cons_of_neg]
          · symm
            apply find?_of_imp _ _ _ _ hsel
            · rw [List.all_cons]
              refine (Bool.and_eq_true _ _).mpr ⟨?_, hr_all⟩
              exact decide_eq_true (Nat.le_of_lt (Nat.lt_of_not_le hle))
            · intro y hy
              rw [List.all_cons] at hy
              exact ((Bool.and_eq_true _ _).mp hy).2
          · rw [List.all_cons]
            intro hall
            rcases (Bool.and_eq_true _ _).mp hall with ⟨-, htail⟩
            have := List.all_eq_true.mp htail r hr_mem
            exact hle (of_decide_eq_true this)
    · rw [prioritySelectSpec_cons_of_neg pr q x l hqx]
      cases hsel : prioritySelectSpec pr q l with
      | none => simp [hqx]
      | some r => simp [hqx]

theorem prioritySelectSpec_filter (pr : α → Nat) (p q : α → Bool) (l : List α) :
    prioritySelectSpec pr q (l.filter p) = prioritySelectSpec pr (fun a => p a && q a) l := by
  have h : (l.filter p).filter q = l.filter (fun a => p a && q a) := by
    rw [List.filter_filter]
    congr 1
    funext a
    exact Bool.and_comm (q a) (p a)
  simp only [prioritySelectSpec, h]

/-- C5: time-based selection returns the first rule in original list order
whose `active` flag is true, whose `daysOfWeek` is empty or contains the
computed day-of-week, and whose inclusive `[startTime, endTime]` range
contains the computed `HH:MM` time under lexicographic string comparison;
in particular a rule with `daysOfWeek = []` matches on every day of the
week (its match is a function of the time alone). -/
theorem time_selection_first_match :
    (∀ (rules : List TimeRule) (ts off : Int),
      getActiveTimeBasedRedirect rules ts off
        = rules.find? (fun r => r.active
            && (r.daysOfWeek.isEmpty || r.daysOfWeek.contains (jsDayOfWeek ts off))
            && (strLe r.startTime (jsTimeString ts off)
                && strLe (jsTimeString ts off) r.endTime)))
    ∧ (∀ (r : TimeRule) (day : Nat) (time : String), r.daysOfWeek = [] →
        timeRuleMatches day time r = (strLe r.startTime time && strLe time r.endTime)) := by
  constructor
  · intro rules ts off
    rw [getActiveTimeBasedRedirect, find?_filter_eq]
    congr 1
    funext r
    cases hd : r.daysOfWeek with
    | nil => simp [timeRuleMatches, hd]
    | cons a as =>
      simp only [timeRuleMatches, hd]
      cases hc : (a :: as).contains (jsDayOfWeek ts off)
      · simp [hc]
      · simp [hc]
  · intro r day time hd
    simp [timeRuleMatches, hd]

/-- C5 witness: the equality evaluated on a one-rule list at the concrete
instant 600 (Thursday 10:00 UTC, server at UTC), and the every-day clause
evaluated on `timeRuleNY` (whose `daysOfWeek` is empty) at day 3, 10:00. -/
theorem time_selection_first_match_witness :
    getActiveTimeBasedRedirect [timeRuleNY] 600 0
      = [timeRuleNY].find? (fun r => r.active
          && (r.daysOfWeek.isEmpty || r.daysOfWeek.contains (jsDayOfWeek 600 0))
          && (strLe r.startTime (jsTimeString 600 0)
              && strLe (jsTimeString 600 0) r.endTime))
    ∧ timeRuleMatches 3 "10:00" timeRuleNY
        = (strLe timeRuleNY.startTime "10:00" && strLe "10:00" timeRuleNY.endTime) :=
  ⟨time_selection_first_match.1 [timeRuleNY] 600 0,
   time_selection_first_match.2 timeRuleNY 3 "10:00" rfl⟩

/-- C6: for geo and conditional rules, selection among matching active
rules picks, in a single pass over the stable descending sort, exactly the
earliest-declared rule of maximal priority among the active matching ones —
priority descending, ties broken by original list order.  Determinism
across repeated calls is inherent: both selectors are pure functions of
their arguments (the JS code sorts a fresh `filter` copy, never the stored
array). -/
theorem priority_selection_spec_eq :
    ∀ (geo : List GeoRule) (loc : VisitorLocation)
      (re : String → Option (String → Bool)) (cond : List ConditionalRule)
      (ctx : TapContext),
      getActiveGeoBasedRedirect geo loc
        = prioritySelectSpec (fun r => r.priority)
            (fun r => r.active && geoRuleMatches loc r) geo
      ∧ getActiveConditionalRedirect re cond ctx
        = prioritySelectSpec (fun r => r.priority)
            (fun r => r.active && condRuleMatches re ctx r) cond := by
  intro geo loc re cond ctx
  constructor
  · rw [getActiveGeoBasedRedirect, find?_sortByPriorityDesc, prioritySelectSpec_filter]
  · rw [getActiveConditionalRedirect, find?_sortByPriorityDesc, prioritySelectSpec_filter]

/-- C7: a profile with the `static` strategy resolves to its default URL
for every context, and the result is independent of the contents of all
three rule lists — no rule is consulted. -/
theorem static_strategy_ignores_rules :
    ∀ (re : String → Option (String → Bool)) (off : Int) (p : Profile)
      (ctx : TapContext) (tr : List TimeRule) (gr : List GeoRule)
      (cr : List ConditionalRule),
      p.redirectType = RedirectType.static →
      getRedirectUrl re off
        { p with timeBasedRedirects := tr, geoBasedRedirects := gr,
                 conditionalRedirects := cr } ctx
        = p.redirectUrl := by
  intro re off p ctx tr gr cr h
  simp [getRedirectUrl, h]

/-- C7 witness: the static `profileWork` with a non-empty time rule list
still resolves to its default URL. -/
theorem static_strategy_ignores_rules_witness :
    getRedirectUrl reNone 0
      { profileWork with timeBasedRedirects := [timeRuleNY], geoBasedRedirects := [],
                         conditionalRedirects := [] } ctx0
      = profileWork.redirectUrl :=
  static_strategy_ignores_rules reNone 0 profileWork ctx0 [timeRuleNY] [] [] rfl

/-- C8: under a non-static strategy, an empty selected rule list or a
selection that matches no active rule makes `getRedirectUrl` fall through
to the profile's default URL (no-match is not an error). -/
theorem nonstatic_no_match_falls_back :
    ∀ (re : String → Option (String → Bool)) (off : Int) (p : Profile)
      (ctx : TapContext),
      (p.redirectType = RedirectType.timeBased →
        (p.timeBasedRedirects = [] ∨
          getActiveTimeBasedRedirect p.timeBasedRedirects ctx.timestamp off = none) →
        getRedirectUrl re off p ctx = p.redirectUrl)
      ∧ (p.redirectType = RedirectType.geoBased →
        (p.geoBasedRedirects = [] ∨
          getActiveGeoBasedRedirect p.geoBasedRedirects ctx.location = none) →
        getRedirectUrl re off p ctx = p.redirectUrl)
      ∧ (p.redirectType = RedirectType.conditional →
        (p.conditionalRedirects = [] ∨
          getActiveConditionalRedirect re p.conditionalRedirects ctx = none) →
        getRedirectUrl re off p ctx = p.redirectUrl) := by
  intro re off p ctx
  refine ⟨?_, ?_, ?_⟩ <;> intro h hsel <;> rcases hsel with hsel | hsel <;>
    simp [getRedirectUrl, h, hsel]

/-- C8 witness: a time-based profile with an empty rule list resolves to
its default URL. -/
theorem nonstatic_no_match_falls_back_witness :
    getRedirectUrl reNone 0 profileTimeEmpty ctx0 = profileTimeEmpty.redirectUrl :=
  (nonstatic_no_match_falls_back reNone 0 profileTimeEmpty ctx0).1 rfl (Or.inl rfl)

/-- C1: the tap route does NOT invoke the redirect resolver.  At a concrete
activated card whose associated profile resolves to
`https://work.example`, the handler reports the fixed placeholder
`https://example.com` — a constant that differs from the resolver's output.
The route body carries the TODO markers `Implement redirect logic based on
profile settings` and `Placeholder`, so the code contradicts its own stated
intent. -/
theorem tap_returns_placeholder_not_resolver :
    tapHandler (some cardWithProfile) true
      = TapResp.tapSuccess (some placeholderRedirectUrl)
    ∧ getRedirectUrl reNone 0 profileWork ctx0 = some "https://work.example"
    ∧ placeholderRedirectUrl ≠ "https://work.example" :=
  ⟨rfl, rfl, by decide⟩

/-- C2 counterexample: the time matcher reads the server's local clock, not
the rule's `timezone`.  `timeRuleNY` (09:00-17:00, timezone field
`America/New_York`) evaluated at the same instant (600 minutes after the
epoch) matches on a server at UTC offset 0 (local 10:00) but not on a
server at offset -600 minutes (local 00:00): two servers in different local
timezones reach different match decisions on the same rule and instant. -/
theorem time_matcher_server_timezone_cex :
    timeRuleNY.timezone = "America/New_York"
    ∧ getActiveTimeBasedRedirect [timeRuleNY] 600 0 = some timeRuleNY
    ∧ getActiveTimeBasedRedirect [timeRuleNY] 600 (-600) = none :=
  ⟨rfl, by decide, by decide⟩

/-- C2 amended: the matcher computes day-of-week and minute-of-day with the
server-local `Date` accessors and never reads the rule's `timezone` field —
rewriting every rule's timezone arbitrarily leaves the selection unchanged
(up to the rewritten field of the returned rule). -/
theorem time_matcher_ignores_rule_timezone :
    ∀ (rules : List TimeRule) (ts off : Int) (tz : String),
      getActiveTimeBasedRedirect (rules.map (setTimezone tz)) ts off
        = (getActiveTimeBasedRedirect rules ts off).map (setTimezone tz) := by
  intro rules ts off tz
  rw [getActiveTimeBasedRedirect, getActiveTimeBasedRedirect]
  induction rules with
  | nil => rfl
  | cons r rs ih =>
    rw [List.map_cons]
    by_cases hact : r.active = true
    · have hact2 : (setTimezone tz r).active = true := hact
      rw [List.filter_cons_of_pos hact2, List.filter_cons_of_pos hact]
      by_cases hm : timeRuleMatches (jsDayOfWeek ts off) (jsTimeString ts off) r = true
      · have hm2 : timeRuleMatches (jsDayOfWeek ts off) (jsTimeString ts off)
            (setTimezone tz r) = true := hm
        rw [List.find?_cons_of_pos _ hm2, List.find?_cons_of_pos _ hm]
        rfl
      · have hm2 : ¬ timeRuleMatches (jsDayOfWeek ts off) (jsTimeString ts off)
            (setTimezone tz r) = true := hm
        rw [List.find?_cons_of_neg _ hm2, List.find?_cons_of_neg _ hm]
        exact ih
    · have hact2 : ¬ (setTimezone tz r).active = true := hact
      rw [List.filter_cons_of_neg hact2, List.filter_cons_of_neg hact]
      exact ih

/-- C3 counterexample: on an activated card with a profile, a failing
`card.recordTap()` (awaited inside the `try`) sends the request to the
`catch` block, which forwards the error via `next(error)` — no tap-success
response with a destination is produced. -/
theorem recordtap_failure_blocks_redirect_cex :
    tapHandler (some cardWithProfile) false = TapResp.errorForwarded
    ∧ TapResp.errorForwarded ≠ TapResp.tapSuccess (some placeholderRedirectUrl) :=
  ⟨rfl, by decide⟩

/-- C3 amended: for every activated card, a failure of `recordTap` makes
the handler forward the error to the error middleware instead of returning
the destination outcome. -/
theorem recordtap_failure_forwards_error :
    ∀ c : TapCard, c.isActivated = true →
      tapHandler (some c) false = TapResp.errorForwarded := by
  intro c h
  simp [tapHandler, h]

/-- C3 amended witness: the amended statement at the concrete activated
card. -/
theorem recordtap_failure_forwards_error_witness :
    tapHandler (some cardWithProfile) false = TapResp.errorForwarded :=
  recordtap_failure_forwards_error cardWithProfile rfl

/-- C4 counterexample: on a static profile whose default URL is absent, the
code's `getRedirectUrl` returns the absent value itself (JS `undefined`,
modelled `none`) as an ordinary return value — precisely the outcome the
claim excludes — while the spec-modelled resolver reports the explicit
`NoDefaultUrl` error. -/
theorem missing_default_returns_undefined_cex :
    getRedirectUrl reNone 0 profileNoDefault ctx0 = none
    ∧ resolveRedirectSpec reNone 0 profileNoDefault ctx0
        = ResolveResult.errNoDefaultUrl :=
  ⟨rfl, rfl⟩

/-- C4 amended: a profile with an absent or empty default URL that reaches
the fallback (here: the static strategy) yields that absent or empty value
unchanged as a normal result; `getRedirectUrl` has no error outcome at
all. -/
theorem missing_default_passthrough :
    ∀ (re : String → Option (String → Bool)) (off : Int) (p : Profile)
      (ctx : TapContext),
      (p.redirectUrl = none ∨ p.redirectUrl = some "") →
      p.redirectType = RedirectType.static →
      getRedirectUrl re off p ctx = p.redirectUrl := by
  intro re off p ctx _ h
  simp [getRedirectUrl, h]

/-- C4 amended witness: the amended statement at the concrete profile with
an absent default URL. -/
theorem missing_default_passthrough_witness :
    getRedirectUrl reNone 0 profileNoDefault ctx0 = profileNoDefault.redirectUrl :=
  missing_default_passthrough reNone 0 profileNoDefault ctx0 (Or.inl rfl) rfl

/-- C9: a conditional rule with the `regex` operator whose pattern fails to
compile (the engine yields `none`, modelling the throwing `new RegExp`
caught by the `catch` that returns `false`) never matches, and dropping it
from the head of the rule list leaves the selection unchanged — resolution
proceeds to the remaining rules or the default.  A pattern that does
compile is tested (case-insensitively, via the `'i'` flag baked into the
engine) against the original-case signal value, not the lower-cased one.
The matcher is a total function: no exception escapes it. -/
theorem malformed_regex_never_matches :
    ∀ (re : String → Option (String → Bool)) (r : ConditionalRule)
      (ctx : TapContext) (rest : List ConditionalRule),
      r.operator = CondOp.regex →
      (re r.value = none →
        condRuleMatches re ctx r = false
        ∧ getActiveConditionalRedirect re (r :: rest) ctx
            = getActiveConditionalRedirect re rest ctx)
      ∧ (∀ t : String → Bool, re r.value = some t →
        condRuleMatches re ctx r = t (signalOf ctx r.condition)) := by
  intro re r ctx rest hop
  constructor
  · intro hre
    have hmatch : condRuleMatches re ctx r = false := by
      simp [condRuleMatches, hop, hre]
    refine ⟨hmatch, ?_⟩
    rw [getActiveConditionalRedirect, getActiveConditionalRedirect]
    by_cases hact : r.active = true
    · rw [List.filter_cons_of_pos hact]
      have hstep : sortByPriorityDesc (fun c => c.priority)
            (r :: (rest.filter (fun c => c.active)))
          = sortInsert (fun c => c.priority) r
              (sortByPriorityDesc (fun c => c.priority)
                (rest.filter (fun c => c.active))) := rfl
      rw [hstep, find?_sortInsert_of_neg _ _ _ hmatch]
    · rw [List.filter_cons_of_neg hact]
  · intro t hre
    simp [condRuleMatches, hop, hre]

/-- C9 witness: the malformed pattern `(` of `condRegexRule` under the
all-malformed engine: the rule never matches and selection over the
one-rule list equals selection over the empty list. -/
theorem malformed_regex_never_matches_witness :
    condRuleMatches reNone ctx0 condRegexRule = false
    ∧ getActiveConditionalRedirect reNone [condRegexRule] ctx0
        = getActiveConditionalRedirect reNone [] ctx0 :=
  (malformed_regex_never_matches reNone condRegexRule ctx0 [] rfl).1 rfl

/-- C10: a geo rule field holding the empty string is falsy in the guard
`if (rule.country && ...)`, so it imposes no constraint: it behaves exactly
like an unset (absent) field, and a rule with `country = ""` matches
visitors from every country (the match result does not depend on the
visitor's country). -/
theorem empty_geo_field_is_wildcard :
    ∀ (r : GeoRule) (loc : VisitorLocation),
      (geoRuleMatches loc { r with country := some "" }
        = geoRuleMatches loc { r with country := none })
      ∧ (geoRuleMatches loc { r with region := some "" }
        = geoRuleMatches loc { r with region := none })
      ∧ (geoRuleMatches loc { r with city := some "" }
        = geoRuleMatches loc { r with city := none })
      ∧ ∀ c1 c2 : Option String,
          geoRuleMatches { loc with country := c1 } { r with country := some "" }
            = geoRuleMatches { loc with country := c2 } { r with country := some "" } := by
  intro r loc
  refine ⟨?_, ?_, ?_, ?_⟩
  · simp [geoRuleMatches, geoFieldCheck, truthyStr]
  · simp [geoRuleMatches, geoFieldCheck, truthyStr]
  · simp [geoRuleMatches, geoFieldCheck, truthyStr]
  · intro c1 c2
    simp [geoRuleMatches, geoFieldCheck, truthyStr]

end TapMeIn
